import Mathlib

/-!
Shallow embedding of `crop.py` (directory "Ball detection using GMM in RGB
color space"): a manual labelling loop that, for each file of a directory,
decodes an image, lets the operator draw a region-of-interest polygon,
rasterizes it to a boolean mask (`RoiPoly.get_mask`), extracts the masked
pixels' channel vectors (`img[mask]`), stacks them onto an accumulator
initialised as `np.empty((0,3))` (`np.vstack`), and finally writes the
accumulated table to `ball.csv` with `np.savetxt(..., delimiter=',')`.

Pixel values and polygon coordinates are modelled as rationals; arrays as
lists scanned in row-major (C) order, matching numpy boolean indexing.
-/

namespace Crop

/-- An `(height, width, channels)` image as produced by `plt.imread`:
`pixel i j k` is the value of channel `k` at row `i`, column `j`. -/
structure Image where
  height : Nat
  width : Nat
  channels : Nat
  pixel : Nat → Nat → Nat → ℚ

/-- A 2-dimensional boolean array, as returned by `RoiPoly.get_mask`. -/
structure Mask where
  height : Nat
  width : Nat
  mem : Nat → Nat → Bool

/-- A region-of-interest polygon: the ordered vertex list drawn by the
operator, in image pixel coordinates `(x, y)`, closed implicitly. -/
structure RoiPoly where
  vertices : List (ℚ × ℚ)

/-- The polygon's edge list: consecutive vertex pairs, the last vertex
joined back to the first. -/
def RoiPoly.edges (p : RoiPoly) : List ((ℚ × ℚ) × (ℚ × ℚ)) :=
  p.vertices.zip (p.vertices.rotate 1)

/-- Twice the signed enclosed area of the polygon (shoelace formula);
it is `0` exactly for degenerate (zero-area) polygons. -/
def polyArea2 (p : RoiPoly) : ℚ :=
  (p.edges.map (fun e => e.1.1 * e.2.2 - e.2.1 * e.1.2)).sum

/-- Whether the horizontal ray from `(x, y)` towards `+x` crosses the
edge `e` (standard even-odd crossing test). -/
def edgeCrosses (x y : ℚ) (e : (ℚ × ℚ) × (ℚ × ℚ)) : Bool :=
  (decide (e.1.2 ≤ y) != decide (e.2.2 ≤ y)) &&
    decide (x < e.1.1 + (y - e.1.2) * (e.2.1 - e.1.1) / (e.2.2 - e.1.2))

/-- Even-odd point-in-polygon containment for the point `(x, y)`. -/
def pointInPoly (p : RoiPoly) (x y : ℚ) : Bool :=
  (p.edges.filter (edgeCrosses x y)).length % 2 == 1

/-- Modelled from the spec: `RoiPoly.get_mask` of the external `roipoly`
library (the library's code is not part of this repository's sources).
Per the spec's Mask Rasterizer contract it returns a boolean mask of
exactly the target spatial shape, true where the pixel lies inside the
polygon, and a degenerate (zero-area) polygon yields an all-false mask.
Pixel `(i, j)` corresponds to the point `x = j`, `y = i`. -/
def RoiPoly.get_mask (p : RoiPoly) (height width : Nat) : Mask :=
  { height := height
    width := width
    mem := fun i j =>
      if polyArea2 p = 0 then false else pointInPoly p (j : ℚ) (i : ℚ) }

/-- The channel vector `img[i, j, :]` of the pixel at row `i`, column `j`. -/
def channelVector (img : Image) (i j : Nat) : List ℚ :=
  (List.range img.channels).map (fun k => img.pixel i j k)

/-- The coordinates of the true entries of a mask, in row-major (C) scan
order — the order in which numpy boolean indexing visits them. -/
def maskedIndices (m : Mask) : List (Nat × Nat) :=
  (List.range m.height).flatMap (fun i =>
    ((List.range m.width).filter (fun j => m.mem i j)).map (fun j => (i, j)))

/-- The number of true entries of a mask. -/
def maskCount (m : Mask) : Nat :=
  ((List.range m.height).map
    (fun i => ((List.range m.width).filter (fun j => m.mem i j)).length)).sum

/-- A 2-dimensional numpy array together with its column count (the column
count of `img[mask]` is the image's channel count even when no row is
selected, because the result has shape `(k, channels)`). -/
structure Batch where
  cols : Nat
  rows : List (List ℚ)

/-- `img[mask]`: numpy boolean-mask indexing of a 3-d array by a 2-d mask,
yielding one row per true mask entry, in row-major scan order, each row
being that pixel's full channel vector. -/
def extract (img : Image) (m : Mask) : Batch :=
  { cols := img.channels
    rows := (maskedIndices m).map (fun p => channelVector img p.1 p.2) }

/-- The accumulator `points`, a 2-d array: column count plus rows. -/
structure Accumulator where
  cols : Nat
  rows : List (List ℚ)
deriving DecidableEq

/-- `points = np.empty((0,3))` (line 9): zero rows, three columns. -/
def initialPoints : Accumulator := { cols := 3, rows := [] }

/-- The failures the run can abort with: `plt.imread` raising on an
undecodable file (the spec's DecodeError, carrying the file name), and
`np.vstack` raising on a column-count mismatch (the spec's
SchemaMismatchError). -/
inductive PipelineError where
  | decodeError (filename : String)
  | schemaMismatch
deriving DecidableEq

/-- `np.vstack((points, batch))`: succeeds and appends the batch's rows
exactly when the batch's column count equals the accumulator's; otherwise
numpy raises (dimensions other than the concatenation axis must match). -/
def vstack (acc : Accumulator) (b : Batch) : Except PipelineError Accumulator :=
  if b.cols = acc.cols then
    Except.ok { cols := acc.cols, rows := acc.rows ++ b.rows }
  else
    Except.error PipelineError.schemaMismatch

/-- A directory entry: its file name and, when the file is decodable, the
image `plt.imread` yields for it (`none` models an undecodable file). -/
structure ImageFile where
  name : String
  decoded : Option Image

/-- One iteration of the `for filename in os.listdir(...)` loop body:
decode the image (lines 11-12), rasterize the operator's polygon over the
image plane (lines 15-16), and stack `img[mask]` onto `points` (lines
17-18). -/
def processImage (acc : Accumulator) (file : ImageFile) (p : RoiPoly) :
    Except PipelineError Accumulator :=
  match file.decoded with
  | none => Except.error (PipelineError.decodeError file.name)
  | some img =>
      vstack acc (extract img (p.get_mask img.height img.width))

/-- The whole `for` loop (lines 10-18), threading the accumulator through
the files in directory order; any raised error aborts the remaining
iterations. -/
def runPipeline : List (ImageFile × RoiPoly) → Accumulator →
    Except PipelineError Accumulator
  | [], acc => Except.ok acc
  | fp :: rest, acc =>
      match processImage acc fp.1 fp.2 with
      | Except.ok acc1 => runPipeline rest acc1
      | Except.error e => Except.error e

/-! ### The writer (`np.savetxt('ball.csv', points, delimiter=',')`, line 20)
and a parser for its output.

`np.savetxt` renders each row of the table on its own text line terminated
by a newline, with the fields of the row joined by the `','` delimiter in
column order, and no header line. Each numeric field is rendered in a
locale-independent textual form with an exact inverse; values being exact
rationals here, the field codec below writes the reduced
numerator-slash-denominator digits of the value. -/

/-- The decimal digit character for `d < 10`. -/
def digitChar (d : Nat) : Char := Char.ofNat (48 + d)

/-- Inverse of `digitChar` on decimal digit characters. -/
def charDigit (c : Char) : Nat := c.toNat - 48

/-- Little-endian decimal digits of `n`, with explicit fuel (`fuel ≥ n`
suffices); structurally recursive so that it evaluates by reduction. -/
def digitsLE : Nat → Nat → List Nat
  | _, 0 => []
  | 0, _ + 1 => []
  | fuel + 1, n + 1 => (n + 1) % 10 :: digitsLE fuel ((n + 1) / 10)

/-- The usual decimal rendering of a natural number. -/
def natChars (n : Nat) : List Char :=
  if n = 0 then [digitChar 0] else ((digitsLE n n).reverse.map digitChar)

/-- Parse back the decimal rendering of a natural number. -/
def charsNat (l : List Char) : Nat :=
  Nat.ofDigits 10 ((l.map charDigit).reverse)

/-- The textual field for one rational value: optional minus sign, then
the reduced numerator's digits, a slash, and the denominator's digits. -/
def fieldChars (q : ℚ) : List Char :=
  (if q < 0 then [Char.ofNat 45] else []) ++
    natChars q.num.natAbs ++ Char.ofNat 47 :: natChars q.den

/-- Split a character list at every occurrence of `sep` (the pieces do not
contain `sep`; `n` separators yield `n + 1` pieces). -/
def splitChar (sep : Char) : List Char → List (List Char)
  | [] => [[]]
  | c :: cs =>
      let r := splitChar sep cs
      if c = sep then [] :: r else (c :: r.headD []) :: r.tail

/-- Join character lists with a single separating character between
consecutive pieces. -/
def joinSep (sep : Char) : List (List Char) → List Char
  | [] => []
  | [x] => x
  | x :: y :: rest => x ++ sep :: joinSep sep (y :: rest)

/-- One output line: the row's fields joined by the `','` delimiter, in
column (channel) order. -/
def rowChars (r : List ℚ) : List Char := joinSep ',' (r.map fieldChars)

/-- The characters `np.savetxt` writes for a table: every row's line
followed by the `'\n'` line terminator; no header. -/
def serializeChars (rows : List (List ℚ)) : List Char :=
  (rows.map (fun r => rowChars r ++ ['\n'])).flatten

/-- The full file content written for the accumulator. -/
def serialize (acc : Accumulator) : String := ⟨serializeChars acc.rows⟩

/-- The data lines of a written file: split at newlines and drop the empty
piece after the final line terminator. -/
def fileLines (s : String) : List (List Char) :=
  (splitChar '\n' s.data).dropLast

/-- Parse one nonnegative field: digits, slash, digits. -/
def posFromChars (l : List Char) : Option ℚ :=
  match splitChar (Char.ofNat 47) l with
  | [a, b] => some (mkRat (charsNat a) (charsNat b))
  | _ => none

/-- Parse one field, with an optional leading minus sign. -/
def fieldFromChars : List Char → Option ℚ
  | [] => none
  | c :: cs =>
      if c = Char.ofNat 45 then Option.map Neg.neg (posFromChars cs)
      else posFromChars (c :: cs)

/-- Parse every field of a line, failing if any field fails. -/
def parseFields : List (List Char) → Option (List ℚ)
  | [] => some []
  | f :: fs =>
      match fieldFromChars f, parseFields fs with
      | some q, some qs => some (q :: qs)
      | _, _ => none

/-- Parse one data line into its comma-separated fields. -/
def parseRow (l : List Char) : Option (List ℚ) :=
  parseFields (splitChar ',' l)

/-- Parse every data line, failing if any line fails. -/
def parseRows : List (List Char) → Option (List (List ℚ))
  | [] => some []
  | l :: ls =>
      match parseRow l, parseRows ls with
      | some r, some rs => some (r :: rs)
      | _, _ => none

/-- Parse a written file back into a table of rational values. -/
def parseFile (s : String) : Option (List (List ℚ)) :=
  parseRows (fileLines s)

/-- The whole script: run the annotation loop over the directory, then —
only on success — write `ball.csv` once, replacing whatever content `fs`
the path held before; on failure the loop aborts before `np.savetxt` runs,
so the path's previous content is untouched. Returns the final content of
`ball.csv` and the error, if any. -/
def runScript (files : List (ImageFile × RoiPoly)) (fs : Option String) :
    Option String × Option PipelineError :=
  match runPipeline files initialPoints with
  | Except.ok acc => (some (serialize acc), none)
  | Except.error e => (fs, some e)

/-! ### Basic lemmas about extraction -/

theorem length_maskedIndices (m : Mask) :
    (maskedIndices m).length = maskCount m := by
  simp only [maskedIndices, maskCount, List.length_flatMap]
  refine congrArg List.sum (List.map_congr_left (fun i _ => ?_))
  simp

theorem mem_maskedIndices {m : Mask} {p : Nat × Nat} :
    p ∈ maskedIndices m ↔ p.1 < m.height ∧ p.2 < m.width ∧ m.mem p.1 p.2 = true := by
  cases p with
  | mk i j =>
    simp only [maskedIndices, List.mem_flatMap, List.mem_map, List.mem_filter,
      List.mem_range]
    constructor
    · rintro ⟨a, ha, b, ⟨hb, hmem⟩, heq⟩
      cases heq
      exact ⟨ha, hb, hmem⟩
    · rintro ⟨hi, hj, hmem⟩
      exact ⟨i, hi, j, ⟨hj, hmem⟩, rfl⟩

theorem maskedIndices_all_false {m : Mask}
    (h : ∀ i j, m.mem i j = false) : maskedIndices m = [] := by
  rcases h' : maskedIndices m with _ | ⟨p, l⟩
  · rfl
  · have : p ∈ maskedIndices m := by rw [h']; exact List.mem_cons_self p l
    rcases mem_maskedIndices.mp this with ⟨-, -, hmem⟩
    rw [h p.1 p.2] at hmem
    cases hmem

/-- Row-major characterization: the visited coordinates are the row-major
enumeration of the whole pixel grid, filtered by the mask. -/
theorem maskedIndices_eq_filter (m : Mask) :
    maskedIndices m =
      ((List.range m.height).flatMap
        (fun i => (List.range m.width).map (fun j => (i, j)))).filter
        (fun p => m.mem p.1 p.2) := by
  rw [List.filter_flatMap]
  unfold maskedIndices
  refine List.flatMap_congr (fun i _ => ?_)
  rw [List.filter_map]
  rfl

/-! ### Pipeline lemmas -/

/-- The samples one directory entry contributes when it is processed
without error. -/
def imageSamples (fp : ImageFile × RoiPoly) : List (List ℚ) :=
  match fp.1.decoded with
  | some img => (extract img (fp.2.get_mask img.height img.width)).rows
  | none => []

/-- The mask true-count of one directory entry's image. -/
def imageTrueCount (fp : ImageFile × RoiPoly) : Nat :=
  match fp.1.decoded with
  | some img => maskCount (fp.2.get_mask img.height img.width)
  | none => 0

theorem processImage_ok {acc acc1 : Accumulator} {file : ImageFile} {p : RoiPoly}
    (h : processImage acc file p = Except.ok acc1) :
    ∃ img, file.decoded = some img ∧ img.channels = acc.cols ∧
      acc1 = ⟨acc.cols, acc.rows ++ imageSamples (file, p)⟩ := by
  unfold processImage at h
  rcases hd : file.decoded with - | img
  · rw [hd] at h; cases h
  · rw [hd] at h
    unfold vstack at h
    dsimp only at h
    by_cases hcols :
        (extract img (p.get_mask img.height img.width)).cols = acc.cols
    · rw [if_pos hcols] at h
      refine ⟨img, rfl, hcols, ?_⟩
      cases h
      simp [imageSamples, hd]
    · rw [if_neg hcols] at h
      cases h

theorem runPipeline_ok :
    ∀ (files : List (ImageFile × RoiPoly)) (acc0 acc : Accumulator),
      runPipeline files acc0 = Except.ok acc →
      acc.cols = acc0.cols ∧
        acc.rows = acc0.rows ++ (files.map imageSamples).flatten
  | [], acc0, acc, h => by
      cases h
      simp
  | fp :: rest, acc0, acc, h => by
      unfold runPipeline at h
      rcases hp : processImage acc0 fp.1 fp.2 with e | acc1
      · rw [hp] at h; cases h
      · rw [hp] at h
        rcases processImage_ok hp with ⟨img, -, -, hacc1⟩
        rcases runPipeline_ok rest acc1 acc h with ⟨hcols, hrows⟩
        subst hacc1
        refine ⟨hcols, ?_⟩
        simp only [List.map_cons, List.flatten_cons, ← List.append_assoc] at hrows ⊢
        exact hrows

theorem runPipeline_cons (fp : ImageFile × RoiPoly)
    (rest : List (ImageFile × RoiPoly)) (acc : Accumulator) :
    runPipeline (fp :: rest) acc =
      match processImage acc fp.1 fp.2 with
      | Except.ok acc1 => runPipeline rest acc1
      | Except.error e => Except.error e := rfl

theorem runPipeline_append (l1 l2 : List (ImageFile × RoiPoly)) :
    ∀ acc : Accumulator,
      runPipeline (l1 ++ l2) acc =
        match runPipeline l1 acc with
        | Except.ok a => runPipeline l2 a
        | Except.error e => Except.error e := by
  induction l1 with
  | nil => intro acc; rfl
  | cons fp rest ih =>
      intro acc
      rw [List.cons_append, runPipeline_cons, runPipeline_cons]
      rcases hp : processImage acc fp.1 fp.2 with e | acc1
      · rfl
      · dsimp only
        exact ih acc1

/-! ### Correctness of the field codec -/

theorem charDigit_digitChar {d : Nat} (h : d < 10) :
    charDigit (digitChar d) = d := by
  interval_cases d <;> rfl

theorem digitChar_mem_range {d : Nat} (h : d < 10) :
    48 ≤ (digitChar d).toNat ∧ (digitChar d).toNat ≤ 57 := by
  interval_cases d <;> exact ⟨by decide, by decide⟩

theorem digitChar_ne {d : Nat} (h : d < 10) {c : Char} (hc : c.toNat < 48) :
    digitChar d ≠ c := by
  intro he
  rcases digitChar_mem_range h with ⟨h48, -⟩
  rw [he] at h48
  omega

theorem digitsLE_eq : ∀ (fuel n : Nat), n ≤ fuel → digitsLE fuel n = Nat.digits 10 n
  | _, 0, _ => by simp [digitsLE]
  | 0, n + 1, h => absurd h (by omega)
  | fuel + 1, n + 1, h => by
      rw [Nat.digits_def' (b := 10) (by norm_num) (Nat.succ_pos n)]
      show (n + 1) % 10 :: digitsLE fuel ((n + 1) / 10) = _
      rw [digitsLE_eq fuel ((n + 1) / 10)]
      have : (n + 1) / 10 < n + 1 := Nat.div_lt_self (Nat.succ_pos n) (by norm_num)
      omega

theorem mem_natChars {c : Char} {n : Nat} (h : c ∈ natChars n) :
    ∃ d, d < 10 ∧ c = digitChar d := by
  unfold natChars at h
  by_cases h0 : n = 0
  · rw [if_pos h0] at h
    rcases List.mem_singleton.mp h with rfl
    exact ⟨0, by norm_num, rfl⟩
  · rw [if_neg h0, digitsLE_eq n n (le_refl n)] at h
    rcases List.mem_map.mp h with ⟨d, hd, rfl⟩
    exact ⟨d, Nat.digits_lt_base (by norm_num) (List.mem_reverse.mp hd), rfl⟩

theorem natChars_ne_nil (n : Nat) : natChars n ≠ [] := by
  unfold natChars
  by_cases h0 : n = 0
  · rw [if_pos h0]; simp
  · rw [if_neg h0, digitsLE_eq n n (le_refl n)]
    simp [Nat.digits_ne_nil_iff_ne_zero.mpr h0]

theorem charsNat_natChars (n : Nat) : charsNat (natChars n) = n := by
  unfold natChars charsNat
  by_cases h0 : n = 0
  · subst h0
    rw [if_pos rfl]
    decide
  · rw [if_neg h0, digitsLE_eq n n (le_refl n), List.map_map]
    have hmap :
        (Nat.digits 10 n).reverse.map (charDigit ∘ digitChar) =
          (Nat.digits 10 n).reverse.map id := by
      refine List.map_congr_left (fun d hd => ?_)
      exact charDigit_digitChar
        (Nat.digits_lt_base (by norm_num) (List.mem_reverse.mp hd))
    rw [hmap, List.map_id, List.reverse_reverse, Nat.ofDigits_digits]

theorem mem_fieldChars {c : Char} {q : ℚ} (h : c ∈ fieldChars q) :
    c = Char.ofNat 45 ∨ c = Char.ofNat 47 ∨ ∃ d, d < 10 ∧ c = digitChar d := by
  unfold fieldChars at h
  simp only [List.mem_append, List.mem_cons] at h
  rcases h with (h1 | h2) | rfl | h3
  · left
    by_cases hq : q < 0
    · rw [if_pos hq] at h1
      exact List.mem_singleton.mp h1
    · rw [if_neg hq] at h1
      cases h1
  · exact Or.inr (Or.inr (mem_natChars h2))
  · exact Or.inr (Or.inl rfl)
  · exact Or.inr (Or.inr (mem_natChars h3))

theorem fieldChars_not_comma {q : ℚ} : ',' ∉ fieldChars q := by
  intro h
  rcases mem_fieldChars h with h1 | h2 | ⟨d, hd, he⟩
  · cases h1
  · cases h2
  · exact digitChar_ne hd (by decide) he.symm

theorem fieldChars_not_newline {q : ℚ} : '\n' ∉ fieldChars q := by
  intro h
  rcases mem_fieldChars h with h1 | h2 | ⟨d, hd, he⟩
  · cases h1
  · cases h2
  · exact digitChar_ne hd (by decide) he.symm

/-! ### Splitting and joining lines and fields -/

theorem splitChar_not_mem {sep : Char} {l : List Char} (h : sep ∉ l) :
    splitChar sep l = [l] := by
  induction l with
  | nil => rfl
  | cons c cs ih =>
      have hc : ¬c = sep := by
        intro he
        exact h (by rw [he]; exact List.mem_cons_self sep cs)
      have hcs : sep ∉ cs := fun hm => h (List.mem_cons_of_mem c hm)
      simp only [splitChar, ih hcs, if_neg hc]
      rfl

theorem splitChar_append {sep : Char} {x : List Char} (hx : sep ∉ x)
    (rest : List Char) :
    splitChar sep (x ++ sep :: rest) = x :: splitChar sep rest := by
  induction x with
  | nil => simp [splitChar]
  | cons c cs ih =>
      have hc : ¬c = sep := by
        intro he
        exact hx (by rw [he]; exact List.mem_cons_self sep cs)
      have hcs : sep ∉ cs := fun hm => hx (List.mem_cons_of_mem c hm)
      simp only [List.cons_append, splitChar, List.append_eq, ih hcs, if_neg hc]
      rfl

theorem splitChar_flatten {sep : Char} :
    ∀ {xs : List (List Char)}, (∀ x ∈ xs, sep ∉ x) →
      splitChar sep ((xs.map (fun x => x ++ [sep])).flatten) = xs ++ [[]] := by
  intro xs
  induction xs with
  | nil => intro _; rfl
  | cons x rest ih =>
      intro h
      have hx : sep ∉ x := h x (List.mem_cons_self x rest)
      rw [List.map_cons, List.flatten_cons, List.append_assoc,
        List.singleton_append, splitChar_append hx,
        ih (fun y hy => h y (List.mem_cons_of_mem x hy))]
      rfl

theorem splitChar_joinSep {sep : Char} :
    ∀ (xs : List (List Char)), xs ≠ [] → (∀ x ∈ xs, sep ∉ x) →
      splitChar sep (joinSep sep xs) = xs
  | [], h, _ => absurd rfl h
  | [x], _, hall => by
      show splitChar sep x = [x]
      exact splitChar_not_mem (hall x (by simp))
  | x :: y :: rest, _, hall => by
      show splitChar sep (x ++ sep :: joinSep sep (y :: rest)) = x :: y :: rest
      rw [splitChar_append (hall x (by simp)),
        splitChar_joinSep (y :: rest) (by simp)
          (fun z hz => hall z (List.mem_cons_of_mem x hz))]

theorem mem_joinSep {sep c : Char} :
    ∀ {xs : List (List Char)}, c ∈ joinSep sep xs → c = sep ∨ ∃ x ∈ xs, c ∈ x
  | [], h => absurd h (List.not_mem_nil c)
  | [x], h => Or.inr ⟨x, by simp, h⟩
  | x :: y :: rest, h => by
      have h' : c ∈ x ++ sep :: joinSep sep (y :: rest) := h
      rcases List.mem_append.mp h' with h1 | h2
      · exact Or.inr ⟨x, by simp, h1⟩
      · rcases List.mem_cons.mp h2 with rfl | h3
        · exact Or.inl rfl
        · rcases mem_joinSep h3 with hs | ⟨z, hz, hcz⟩
          · exact Or.inl hs
          · exact Or.inr ⟨z, List.mem_cons_of_mem x hz, hcz⟩

theorem rowChars_not_newline {r : List ℚ} : '\n' ∉ rowChars r := by
  intro h
  rcases mem_joinSep h with hs | ⟨x, hx, hcx⟩
  · exact absurd hs (by decide)
  · rcases List.mem_map.mp hx with ⟨q, -, rfl⟩
    exact fieldChars_not_newline hcx

/-! ### Round-trip of the writer's output through the parser -/

theorem posFromChars_natChars (a b : Nat) :
    posFromChars (natChars a ++ Char.ofNat 47 :: natChars b) =
      some (mkRat (a : Int) b) := by
  have hslash : ∀ n : Nat, Char.ofNat 47 ∉ natChars n := by
    intro n hm
    rcases mem_natChars hm with ⟨d, hd, he⟩
    exact digitChar_ne hd (by decide) he.symm
  unfold posFromChars
  rw [splitChar_append (hslash a), splitChar_not_mem (hslash b)]
  dsimp only
  rw [charsNat_natChars, charsNat_natChars]

theorem fieldFromChars_fieldChars (q : ℚ) :
    fieldFromChars (fieldChars q) = some q := by
  by_cases hq : q < 0
  · have hnum : ((q.num.natAbs : Int)) = -q.num := by
      refine Int.ofNat_natAbs_of_nonpos ?_
      have h1 : ¬(0 : ℚ) ≤ q := not_le.mpr hq
      have h2 : ¬(0 ≤ q.num) := fun h => h1 (Rat.num_nonneg.mp h)
      exact le_of_not_le h2
    unfold fieldChars
    rw [if_pos hq]
    show fieldFromChars
        (Char.ofNat 45 ::
          (natChars q.num.natAbs ++ Char.ofNat 47 :: natChars q.den)) =
      some q
    unfold fieldFromChars
    dsimp only
    rw [if_pos rfl, posFromChars_natChars]
    show some (-mkRat (q.num.natAbs : Int) q.den) = some q
    rw [Rat.neg_mkRat, hnum, neg_neg, Rat.mkRat_self]
  · rcases hcons : natChars q.num.natAbs with - | ⟨c, cs⟩
    · exact absurd hcons (natChars_ne_nil _)
    · have hc : ¬c = Char.ofNat 45 := by
        have hmem : c ∈ natChars q.num.natAbs := by
          rw [hcons]; exact List.mem_cons_self c cs
        rcases mem_natChars hmem with ⟨d, hd, he⟩
        rw [he]
        exact digitChar_ne hd (by decide)
      unfold fieldChars
      rw [if_neg hq, List.nil_append, hcons, List.cons_append]
      unfold fieldFromChars
      dsimp only
      rw [if_neg hc, ← List.cons_append, ← hcons, posFromChars_natChars]
      have hnum : ((q.num.natAbs : Int)) = q.num :=
        Int.natAbs_of_nonneg (Rat.num_nonneg.mpr (not_lt.mp hq))
      rw [hnum, Rat.mkRat_self]

theorem parseFields_map (r : List ℚ) :
    parseFields (r.map fieldChars) = some r := by
  induction r with
  | nil => rfl
  | cons q qs ih =>
      show parseFields (fieldChars q :: qs.map fieldChars) = some (q :: qs)
      unfold parseFields
      rw [fieldFromChars_fieldChars, ih]

theorem parseRow_rowChars {r : List ℚ} (h : r ≠ []) :
    parseRow (rowChars r) = some r := by
  unfold parseRow rowChars
  rw [splitChar_joinSep (r.map fieldChars) (by simpa using h)
    (fun x hx => by
      rcases List.mem_map.mp hx with ⟨q, -, rfl⟩
      exact fieldChars_not_comma)]
  exact parseFields_map r

theorem parseRows_map {rows : List (List ℚ)} (h : ∀ r ∈ rows, r ≠ []) :
    parseRows (rows.map rowChars) = some rows := by
  induction rows with
  | nil => rfl
  | cons r rs ih =>
      show parseRows (rowChars r :: rs.map rowChars) = some (r :: rs)
      unfold parseRows
      rw [parseRow_rowChars (h r (List.mem_cons_self r rs)),
        ih (fun x hx => h x (List.mem_cons_of_mem r hx))]

theorem fileLines_serialize (acc : Accumulator) :
    fileLines (serialize acc) = acc.rows.map rowChars := by
  show (splitChar '\n'
      ((acc.rows.map (fun r => rowChars r ++ ['\n'])).flatten)).dropLast = _
  have hmap : acc.rows.map (fun r => rowChars r ++ ['\n']) =
      (acc.rows.map rowChars).map (fun x => x ++ ['\n']) := by
    rw [List.map_map]
    rfl
  rw [hmap,
    splitChar_flatten (fun x hx => by
      rcases List.mem_map.mp hx with ⟨r, -, rfl⟩
      exact rowChars_not_newline),
    List.dropLast_concat]

theorem parseFile_serialize {acc : Accumulator}
    (h : ∀ r ∈ acc.rows, r ≠ []) :
    parseFile (serialize acc) = some acc.rows := by
  unfold parseFile
  rw [fileLines_serialize, parseRows_map h]

/-! ### Concrete example inputs used by the witnesses -/

/-- A 2×2 RGB image with distinct channel values per pixel. -/
def exImg1 : Image := ⟨2, 2, 3, fun i j k => ((i * 100 + j * 10 + k : Nat) : ℚ)⟩

/-- A concrete 2×2 mask with three true entries. -/
def exMask1 : Mask := ⟨2, 2, fun i j => decide (i = 0 ∨ j = 1)⟩

/-- A 1×1 three-channel (RGB) image. -/
def exImgRGB : Image := ⟨1, 1, 3, fun _ _ _ => 1⟩

/-- A 1×1 four-channel (RGBA) image. -/
def exImgRGBA : Image := ⟨1, 1, 4, fun _ _ _ => 1⟩

/-- A directory entry decoding to the RGB image. -/
def exFileRGB : ImageFile := ⟨"rgb.png", some exImgRGB⟩

/-- A directory entry decoding to the RGBA image. -/
def exFileRGBA : ImageFile := ⟨"rgba.png", some exImgRGBA⟩

/-- A directory entry whose file is not decodable. -/
def exBadFile : ImageFile := ⟨"bad.png", none⟩

/-- A degenerate polygon: no vertices, hence zero enclosed area. -/
def exPoly : RoiPoly := ⟨[]⟩

/-- A concrete two-row, three-column accumulator. -/
def exAcc8 : Accumulator := ⟨3, [[1, 2, 3], [4, 5, 6]]⟩

/-! ### The claims -/

/-- C1: for every image and its mask (of matching spatial shape), the
sample extraction `img[mask]` produces exactly one sample per true entry
of the mask, and each produced sample equals the image's full channel
vector at that pixel's coordinates. -/
theorem extract_one_sample_per_true_entry (img : Image) (m : Mask)
    (hh : m.height = img.height) (hw : m.width = img.width) :
    (extract img m).rows.length = maskCount m ∧
      ∀ s ∈ (extract img m).rows, ∃ i j, i < img.height ∧ j < img.width ∧
        m.mem i j = true ∧ s = channelVector img i j := by
  constructor
  · show ((maskedIndices m).map _).length = _
    rw [List.length_map, length_maskedIndices]
  · intro s hs
    rcases List.mem_map.mp hs with ⟨p, hp, rfl⟩
    rcases mem_maskedIndices.mp hp with ⟨hi, hj, hmem⟩
    exact ⟨p.1, p.2, hh ▸ hi, hw ▸ hj, hmem, rfl⟩

/-- C1 witness: the extraction property at a concrete image and mask. -/
theorem extract_one_sample_per_true_entry_witness :
    exMask1.height = exImg1.height ∧ exMask1.width = exImg1.width ∧
      ((extract exImg1 exMask1).rows.length = maskCount exMask1 ∧
        ∀ s ∈ (extract exImg1 exMask1).rows, ∃ i j,
          i < exImg1.height ∧ j < exImg1.width ∧
          exMask1.mem i j = true ∧ s = channelVector exImg1 i j) :=
  ⟨rfl, rfl, extract_one_sample_per_true_entry exImg1 exMask1 rfl rfl⟩

/-- C2: after a successful run over N images, the accumulator starts
empty, its final rows are the concatenation, in image-processing order,
of each image's extracted samples (each image's block being in row-major
mask scan order, by the definition of `extract`), and its row count is
the sum of the images' mask true-counts. -/
theorem dataset_rows_grouped_by_image_then_scan_order
    (files : List (ImageFile × RoiPoly)) (acc : Accumulator)
    (h : runPipeline files initialPoints = Except.ok acc) :
    initialPoints.rows = [] ∧
    acc.rows = (files.map imageSamples).flatten ∧
    acc.rows.length = (files.map imageTrueCount).sum := by
  rcases runPipeline_ok files initialPoints acc h with ⟨-, hrows⟩
  have hrows' : acc.rows = (files.map imageSamples).flatten := by
    simpa using hrows
  refine ⟨rfl, hrows', ?_⟩
  rw [hrows', List.length_flatten, List.map_map]
  refine congrArg List.sum (List.map_congr_left (fun fp _ => ?_))
  show (imageSamples fp).length = imageTrueCount fp
  unfold imageSamples imageTrueCount
  cases fp.1.decoded with
  | none => rfl
  | some img =>
      show ((maskedIndices _).map _).length = _
      rw [List.length_map, length_maskedIndices]

/-- C2 witness: a concrete successful one-image run. -/
theorem dataset_rows_grouped_by_image_then_scan_order_witness :
    runPipeline [(exFileRGB, exPoly)] initialPoints =
        Except.ok initialPoints ∧
      (initialPoints.rows = [] ∧
        initialPoints.rows =
          ([(exFileRGB, exPoly)].map imageSamples).flatten ∧
        initialPoints.rows.length =
          ([(exFileRGB, exPoly)].map imageTrueCount).sum) :=
  ⟨rfl, dataset_rows_grouped_by_image_then_scan_order
    [(exFileRGB, exPoly)] initialPoints rfl⟩

/-- C3: for every image and polygon, the rasterized mask's spatial shape
equals the image's first two dimensions exactly. -/
theorem mask_shape_eq_image_spatial_shape (img : Image) (p : RoiPoly) :
    (p.get_mask img.height img.width).height = img.height ∧
      (p.get_mask img.height img.width).width = img.width :=
  ⟨rfl, rfl⟩

/-- C4: on a (3-channel) image whose polygon has zero enclosed area, the
mask is all false, zero samples are extracted, and the loop iteration
succeeds leaving the accumulator unchanged. -/
theorem degenerate_polygon_yields_no_samples (img : Image) (p : RoiPoly)
    (file : ImageFile) (acc : Accumulator)
    (hch : img.channels = 3) (hdeg : polyArea2 p = 0)
    (hdec : file.decoded = some img) (hcols : acc.cols = 3) :
    (∀ i j, (p.get_mask img.height img.width).mem i j = false) ∧
    (extract img (p.get_mask img.height img.width)).rows = [] ∧
    processImage acc file p = Except.ok acc := by
  have hmem : ∀ i j, (p.get_mask img.height img.width).mem i j = false := by
    intro i j
    show (if polyArea2 p = 0 then false else _) = false
    rw [if_pos hdeg]
  have hrows : (extract img (p.get_mask img.height img.width)).rows = [] := by
    show ((maskedIndices _).map _) = []
    rw [maskedIndices_all_false hmem]
    rfl
  refine ⟨hmem, hrows, ?_⟩
  unfold processImage
  rw [hdec]
  dsimp only
  unfold vstack
  have hcc : (extract img (p.get_mask img.height img.width)).cols = acc.cols := by
    show img.channels = acc.cols
    rw [hch, hcols]
  rw [if_pos hcc, hrows]
  simp

/-- C4 witness: a concrete 3-channel image with an empty (degenerate)
polygon. -/
theorem degenerate_polygon_yields_no_samples_witness :
    exImgRGB.channels = 3 ∧ polyArea2 exPoly = 0 ∧
      exFileRGB.decoded = some exImgRGB ∧ initialPoints.cols = 3 ∧
      ((∀ i j,
          (exPoly.get_mask exImgRGB.height exImgRGB.width).mem i j = false) ∧
        (extract exImgRGB
          (exPoly.get_mask exImgRGB.height exImgRGB.width)).rows = [] ∧
        processImage initialPoints exFileRGB exPoly =
          Except.ok initialPoints) :=
  ⟨rfl, rfl, rfl, rfl,
    degenerate_polygon_yields_no_samples exImgRGB exPoly exFileRGB
      initialPoints rfl rfl rfl rfl⟩

/-- C5 counterexample: with a directory holding two images of differing
channel counts but the four-channel image first, the schema mismatch is
raised already on the FIRST append (the accumulator's column count is
fixed at 3 from the start), not on the second append as the claim
states. -/
theorem schema_mismatch_second_append_cex :
    exImgRGBA.channels ≠ exImgRGB.channels ∧
    processImage initialPoints exFileRGBA exPoly =
      Except.error PipelineError.schemaMismatch ∧
    runPipeline [(exFileRGBA, exPoly), (exFileRGB, exPoly)] initialPoints =
      Except.error PipelineError.schemaMismatch :=
  ⟨by decide, rfl, rfl⟩

/-- C5 (amended): appending a batch whose column count differs from the
accumulator's fails with the schema-mismatch error; in a directory whose
first image has 3 channels and whose second image's channel count
differs from 3, the error is raised on the second append, aborts the
run, and no output file is produced by the run. -/
theorem schema_mismatch_on_first_nonconforming_append
    (f1 f2 : ImageFile) (img1 img2 : Image) (p1 p2 : RoiPoly)
    (rest : List (ImageFile × RoiPoly)) (fs : Option String)
    (h1 : f1.decoded = some img1) (hc1 : img1.channels = 3)
    (h2 : f2.decoded = some img2) (hc2 : img2.channels ≠ 3) :
    (∀ (acc : Accumulator) (b : Batch), b.cols ≠ acc.cols →
        vstack acc b = Except.error PipelineError.schemaMismatch) ∧
    ∃ acc1, processImage initialPoints f1 p1 = Except.ok acc1 ∧
      processImage acc1 f2 p2 = Except.error PipelineError.schemaMismatch ∧
      runPipeline ((f1, p1) :: (f2, p2) :: rest) initialPoints =
        Except.error PipelineError.schemaMismatch ∧
      runScript ((f1, p1) :: (f2, p2) :: rest) fs =
        (fs, some PipelineError.schemaMismatch) := by
  have hsam : imageSamples (f1, p1) =
      (extract img1 (p1.get_mask img1.height img1.width)).rows := by
    unfold imageSamples
    rw [h1]
  have hp1 : processImage initialPoints f1 p1 =
      Except.ok ⟨3, [] ++ imageSamples (f1, p1)⟩ := by
    unfold processImage
    rw [h1]
    dsimp only
    unfold vstack
    have hcc :
        (extract img1 (p1.get_mask img1.height img1.width)).cols =
          initialPoints.cols := hc1
    rw [if_pos hcc, hsam]
    rfl
  have hp2 : ∀ rows : List (List ℚ),
      processImage ⟨3, rows⟩ f2 p2 =
        Except.error PipelineError.schemaMismatch := by
    intro rows
    unfold processImage
    rw [h2]
    dsimp only
    unfold vstack
    have hcc :
        ¬(extract img2 (p2.get_mask img2.height img2.width)).cols =
          Accumulator.cols ⟨3, rows⟩ := hc2
    rw [if_neg hcc]
  have hrun : runPipeline ((f1, p1) :: (f2, p2) :: rest) initialPoints =
      Except.error PipelineError.schemaMismatch := by
    rw [runPipeline_cons]
    dsimp only
    rw [hp1]
    dsimp only
    rw [runPipeline_cons]
    dsimp only
    rw [hp2 ([] ++ imageSamples (f1, p1))]
  refine ⟨?_, ⟨3, [] ++ imageSamples (f1, p1)⟩, hp1, hp2 _, hrun, ?_⟩
  · intro acc b hne
    unfold vstack
    rw [if_neg hne]
  · unfold runScript
    rw [hrun]

/-- C5 witness: a 3-channel first image followed by a 4-channel second
image, with no prior output file. -/
theorem schema_mismatch_on_first_nonconforming_append_witness :
    exFileRGB.decoded = some exImgRGB ∧ exImgRGB.channels = 3 ∧
      exFileRGBA.decoded = some exImgRGBA ∧ exImgRGBA.channels ≠ 3 ∧
      ((∀ (acc : Accumulator) (b : Batch), b.cols ≠ acc.cols →
          vstack acc b = Except.error PipelineError.schemaMismatch) ∧
        ∃ acc1, processImage initialPoints exFileRGB exPoly =
            Except.ok acc1 ∧
          processImage acc1 exFileRGBA exPoly =
            Except.error PipelineError.schemaMismatch ∧
          runPipeline [(exFileRGB, exPoly), (exFileRGBA, exPoly)]
              initialPoints =
            Except.error PipelineError.schemaMismatch ∧
          runScript [(exFileRGB, exPoly), (exFileRGBA, exPoly)] none =
            (none, some PipelineError.schemaMismatch)) :=
  ⟨rfl, rfl, rfl, by decide,
    schema_mismatch_on_first_nonconforming_append exFileRGB exFileRGBA
      exImgRGB exImgRGBA exPoly exPoly [] none rfl rfl rfl (by decide)⟩

/-- C6: when a file of the directory is not decodable, the run aborts
with a decode error identifying that file, the entries after it are
never processed (the run's outcome is that of the run truncated just
after the bad file), and the output path's content is left untouched. -/
theorem decode_failure_aborts_run
    (pre post : List (ImageFile × RoiPoly)) (bad : ImageFile) (p : RoiPoly)
    (fs : Option String) (acc : Accumulator)
    (hbad : bad.decoded = none)
    (hpre : runPipeline pre initialPoints = Except.ok acc) :
    runPipeline (pre ++ (bad, p) :: post) initialPoints =
      Except.error (PipelineError.decodeError bad.name) ∧
    runPipeline (pre ++ (bad, p) :: post) initialPoints =
      runPipeline (pre ++ [(bad, p)]) initialPoints ∧
    runScript (pre ++ (bad, p) :: post) fs =
      (fs, some (PipelineError.decodeError bad.name)) := by
  have hbadstep : ∀ a : Accumulator, processImage a bad p =
      Except.error (PipelineError.decodeError bad.name) := by
    intro a
    unfold processImage
    rw [hbad]
  have h1 : ∀ post' : List (ImageFile × RoiPoly),
      runPipeline (pre ++ (bad, p) :: post') initialPoints =
        Except.error (PipelineError.decodeError bad.name) := by
    intro post'
    rw [runPipeline_append, hpre]
    dsimp only
    rw [runPipeline_cons]
    dsimp only
    rw [hbadstep acc]
  refine ⟨h1 post, ?_, ?_⟩
  · rw [h1 post, h1 []]
  · unfold runScript
    rw [h1 post]

/-- C6 witness: a good file, then an undecodable one, then another good
file. -/
theorem decode_failure_aborts_run_witness :
    exBadFile.decoded = none ∧
      runPipeline [(exFileRGB, exPoly)] initialPoints =
        Except.ok initialPoints ∧
      (runPipeline
          ([(exFileRGB, exPoly)] ++ (exBadFile, exPoly) ::
            [(exFileRGB, exPoly)]) initialPoints =
          Except.error (PipelineError.decodeError exBadFile.name) ∧
        runPipeline
            ([(exFileRGB, exPoly)] ++ (exBadFile, exPoly) ::
              [(exFileRGB, exPoly)]) initialPoints =
          runPipeline ([(exFileRGB, exPoly)] ++ [(exBadFile, exPoly)])
            initialPoints ∧
        runScript
            ([(exFileRGB, exPoly)] ++ (exBadFile, exPoly) ::
              [(exFileRGB, exPoly)]) none =
          (none, some (PipelineError.decodeError exBadFile.name))) :=
  ⟨rfl, rfl,
    decode_failure_aborts_run [(exFileRGB, exPoly)] [(exFileRGB, exPoly)]
      exBadFile exPoly none initialPoints rfl rfl⟩

/-- C7: on a successful run the writer runs exactly once, after the last
image, producing as the whole file content the serialization of the
final accumulator — one comma-delimited line per sample row, fields in
channel order, no header line — regardless of (overwriting) any previous
content at the output path. -/
theorem writer_once_after_last_image
    (files : List (ImageFile × RoiPoly)) (fs : Option String)
    (acc : Accumulator)
    (h : runPipeline files initialPoints = Except.ok acc) :
    runScript files fs = (some (serialize acc), none) ∧
    fileLines (serialize acc) = acc.rows.map rowChars ∧
    (fileLines (serialize acc)).length = acc.rows.length := by
  refine ⟨?_, fileLines_serialize acc, ?_⟩
  · unfold runScript
    rw [h]
  · rw [fileLines_serialize, List.length_map]

/-- C7 witness: a concrete successful one-image run with previous
content at the output path. -/
theorem writer_once_after_last_image_witness :
    runPipeline [(exFileRGB, exPoly)] initialPoints =
        Except.ok initialPoints ∧
      (runScript [(exFileRGB, exPoly)] (some (serialize exAcc8)) =
          (some (serialize initialPoints), none) ∧
        fileLines (serialize initialPoints) =
          initialPoints.rows.map rowChars ∧
        (fileLines (serialize initialPoints)).length =
          initialPoints.rows.length) :=
  ⟨rfl, writer_once_after_last_image [(exFileRGB, exPoly)]
    (some (serialize exAcc8)) initialPoints rfl⟩

/-- C8: parsing the written file recovers exactly the accumulator's
table — same rows, in order, with the same (exactly represented) values;
the only proviso is that rows are non-empty, which holds for every
accumulator the pipeline produces (all rows have width 3). -/
theorem write_then_parse_round_trip (acc : Accumulator)
    (h : ∀ r ∈ acc.rows, r ≠ []) :
    parseFile (serialize acc) = some acc.rows :=
  parseFile_serialize h

/-- C8 witness: the round trip at a concrete two-row table. -/
theorem write_then_parse_round_trip_witness :
    (∀ r ∈ exAcc8.rows, r ≠ []) ∧
      parseFile (serialize exAcc8) = some exAcc8.rows :=
  ⟨by decide, write_then_parse_round_trip exAcc8 (by decide)⟩

/-- C9: the accumulator's column count is 3 before any image is
processed (the schema is not set by the first image), so an image whose
channel count differs from 3 fails on its own append even as the first
image processed. -/
theorem schema_fixed_before_first_image :
    initialPoints.cols = 3 ∧ initialPoints.rows = [] ∧
      ∀ (file : ImageFile) (img : Image) (p : RoiPoly),
        file.decoded = some img → img.channels ≠ 3 →
        processImage initialPoints file p =
          Except.error PipelineError.schemaMismatch := by
  refine ⟨rfl, rfl, ?_⟩
  intro file img p hdec hch
  unfold processImage
  rw [hdec]
  dsimp only
  unfold vstack
  have hcc : ¬(extract img (p.get_mask img.height img.width)).cols =
      initialPoints.cols := hch
  rw [if_neg hcc]

/-- C9 witness: a 4-channel image as the very first image processed. -/
theorem schema_fixed_before_first_image_witness :
    exFileRGBA.decoded = some exImgRGBA ∧ exImgRGBA.channels ≠ 3 ∧
      processImage initialPoints exFileRGBA exPoly =
        Except.error PipelineError.schemaMismatch :=
  ⟨rfl, by decide,
    schema_fixed_before_first_image.2.2 exFileRGBA exImgRGBA exPoly rfl
      (by decide)⟩

/-- C10: with an empty input directory the loop body never runs, the run
succeeds, and the writer still runs, writing a file with zero data
lines (empty content) whatever the output path held before. -/
theorem empty_directory_writes_empty_file (fs : Option String) :
    runPipeline [] initialPoints = Except.ok initialPoints ∧
    runScript [] fs = (some (serialize initialPoints), none) ∧
    (serialize initialPoints).data = [] ∧
    fileLines (serialize initialPoints) = [] :=
  ⟨rfl, rfl, rfl, rfl⟩

end Crop
